import Mathlib

/-!
# Verification of mathcha2tikz core algorithms

Shallow embedding of the core algorithms of the mathcha2tikz converter
(geometry engine, conic fitting, k-d tree color search, dash/opacity
postprocessors, draw-command selection, pipeline orchestration), with
theorems checking the natural-language specification against the code.

Python floats are modelled as exact rationals (`ℚ`); transcendental
operations (`sqrt`, `cos`, `sin`, `atan2`, `pi`) are abstracted as
parameters where the verified property does not depend on their values.
-/

namespace Mathcha

/-! ## Geometry: `src/utils/geometry/point_path_operations.py` -/

/-- Embeds `project_point_on_segment` (point_path_operations.py, lines 23-31):
normalized projection position `t` of a point on the segment `start..end`,
clamped to `[0, 1]`; degenerate segments (squared length `≤ 1e-12`) yield `0.0`. -/
def project_point_on_segment (point start_p end_p : ℚ × ℚ) : ℚ :=
  let vx := end_p.1 - start_p.1
  let vy := end_p.2 - start_p.2
  let seg_len_sq := vx * vx + vy * vy
  if seg_len_sq ≤ 1 / 10 ^ 12 then 0
  else
    let px := point.1 - start_p.1
    let py := point.2 - start_p.2
    let t := (px * vx + py * vy) / seg_len_sq
    max 0 (min 1 t)

/-- Embeds `compute_ellipse_type` (base_geometry.py, lines 111-112). -/
def compute_ellipse_type (major minor : ℚ) : String :=
  if |major - minor| < 1 / 10 ^ 5 then "circle" else "ellipse"

/-- The transcendental operations of the Python `math` module used by
`compute_ellipse_params`, abstracted as parameters: the verified invariant
holds for every instantiation.  `sqrt` returns `none` on the inputs where
`math.sqrt` raises `ValueError` (negative arguments). -/
structure TranscendentalOps where
  sqrt : ℚ → Option ℚ
  cos : ℚ → ℚ
  sin : ℚ → ℚ
  atan2 : ℚ → ℚ → ℚ
  pi : ℚ

/-- Embeds `compute_ellipse_params` (base_geometry.py, lines 75-109).
The `2×2` linear solve of `np.linalg.solve` is written out by Cramer's rule;
a singular matrix (`np.linalg.LinAlgError`, caught and turned into `None`)
is the `det = 0` branch.  A zero denominator in `-F'/A''` or `-F'/B''` makes
the Python code raise an uncaught `ZeroDivisionError`; both that crash and a
`None` are non-successful results, modelled here as `none`. -/
def compute_ellipse_params (ops : TranscendentalOps) (A B C D E F : ℚ) :
    Option (ℚ × ℚ × ℚ × ℚ × ℚ) :=
  let discriminant := C ^ 2 - 4 * A * B
  if discriminant ≥ 1 / 10 ^ 10 then none
  else
    let det := 2 * A * (2 * B) - C * C
    if det = 0 then none
    else
      let x0 := ((-D) * (2 * B) - C * (-E)) / det
      let y0 := (2 * A * (-E) - (-D) * C) / det
      let F' := A * x0 ^ 2 + B * y0 ^ 2 + C * x0 * y0 + D * x0 + E * y0 + F
      if F' ≥ 0 then none
      else
        let θ := if |A - B| < 1 / 10 ^ 5 ∧ |C| < 1 / 10 ^ 5 then 0
                 else (1/2) * ops.atan2 C (A - B)
        let c := ops.cos θ
        let s := ops.sin θ
        let A' := A * c ^ 2 + C * c * s + B * s ^ 2
        let B' := A * s ^ 2 - C * c * s + B * c ^ 2
        if A' = 0 ∨ B' = 0 then none
        else
          (ops.sqrt (-F' / A')).bind fun a =>
            (ops.sqrt (-F' / B')).bind fun b =>
              if a < b then some (x0, y0, b, a, (θ + ops.pi / 2) * 180 / ops.pi)
              else some (x0, y0, a, b, θ * 180 / ops.pi)

/-- A concrete instantiation of the transcendental operations, used to
evaluate the embedding on concrete inputs. -/
def sampleOps : TranscendentalOps where
  sqrt := fun x => if 0 ≤ x then some 1 else none
  cos := fun _ => 1
  sin := fun _ => 0
  atan2 := fun _ _ => 0
  pi := 355 / 113

/-! ## String primitives shared by the parsing embeddings

Python strings are modelled as `List Char`. -/

/-- Python's `c.isspace()` for the whitespace characters `str.strip` and
`str.splitlines` treat specially (space, tab, newline, carriage return,
vertical tab, form feed; the exotic Unicode whitespace of Python is not
produced by the Mathcha export). -/
def pyIsSpace (c : Char) : Bool :=
  c = ' ' || c = '\t' || c = '\n' || c = '\r' || c = '\x0b' || c = '\x0c'

/-- Python's `s.strip()`: remove leading and trailing whitespace. -/
def pyStrip (s : List Char) : List Char :=
  ((s.dropWhile pyIsSpace).reverse.dropWhile pyIsSpace).reverse

/-- Python's `pat in s` substring test: some suffix of `s` starts with `pat`. -/
def hasInfix (s pat : List Char) : Bool :=
  match s with
  | [] => pat.isPrefixOf ([] : List Char)
  | _ :: rest => pat.isPrefixOf s || hasInfix rest pat

/-- Worker for `splitlines`: cut at `\r\n`, `\r` or `\n`; a terminator at the
very end does not open a final empty line. -/
def splitLinesAux : List Char → List Char → List (List Char)
  | [], acc => [acc.reverse]
  | '\r' :: '\n' :: rest, acc =>
    acc.reverse :: (if rest.isEmpty then [] else splitLinesAux rest [])
  | '\r' :: rest, acc =>
    acc.reverse :: (if rest.isEmpty then [] else splitLinesAux rest [])
  | '\n' :: rest, acc =>
    acc.reverse :: (if rest.isEmpty then [] else splitLinesAux rest [])
  | c :: rest, acc => splitLinesAux rest (c :: acc)

/-- Python's `s.splitlines()` on the line terminators `\r\n`, `\r`, `\n`
(the exotic Unicode terminators are not produced by the Mathcha export). -/
def splitlines (s : List Char) : List (List Char) :=
  if s.isEmpty then [] else splitLinesAux s []

/-- Worker for `splitOnSub`: scan left to right, cutting at every
non-overlapping occurrence of the (nonempty) separator.  The `Nat` fuel
makes the recursion structural; every step consumes at least one character
of the scanned list, so fuel `s.length` never runs out for a nonempty
separator and the zero-fuel branch is unreachable. -/
def splitOnSubAux (sep : List Char) : Nat → List Char → List Char → List (List Char)
  | _, [], acc => [acc.reverse]
  | 0, s, acc => [acc.reverse ++ s]
  | fuel + 1, c :: rest, acc =>
    if 1 ≤ sep.length ∧ sep.isPrefixOf (c :: rest) then
      acc.reverse :: splitOnSubAux sep fuel ((c :: rest).drop sep.length) []
    else
      splitOnSubAux sep fuel rest (c :: acc)

/-- Python's `s.split(sep)` for a nonempty separator. -/
def splitOnSub (sep s : List Char) : List (List Char) := splitOnSubAux sep s.length s []

/-! ## Draw-command selection: `src/utils/parsing/parser_utils.py` and
`src/utils/parsing/base_parser.py` -/

/-- The `\draw` token (`r'\draw'`). -/
def drawTok : List Char := "\\draw".toList

/-- Embeds `iter_draw_commands` (parser_utils.py, lines 22-38): split a raw
block into individual `\draw` commands, preserving the prefix. -/
def iter_draw_commands (raw : List Char) : List (List Char) :=
  let lines := ((splitlines raw).map pyStrip).filter (fun l => ¬ l.isEmpty)
  lines.flatMap fun line =>
    if hasInfix line drawTok then
      (splitOnSub drawTok line).enum.filterMap fun ip =>
        if ip.1 = 0 ∧ (pyStrip ip.2).isEmpty then none
        else
          let p := pyStrip ip.2
          if ¬ p.isEmpty then some (drawTok ++ p) else none
    else []

/-- Embeds `is_arrow_line` (parser_utils.py, lines 41-45): a line containing
the `shift` or the `rotate` token is an arrowhead helper. -/
def is_arrow_line (s : List Char) : Bool :=
  hasInfix s "shift".toList || hasInfix s "rotate".toList

/-- The bezier test of `choose_main_draw`: `'..' in s and 'controls' in s
and 'and' in s`. -/
def is_bezier_like (s : List Char) : Bool :=
  hasInfix s "..".toList && hasInfix s "controls".toList && hasInfix s "and".toList

/-- The filter of `choose_main_draw` (parser_utils.py, lines 69-78): a draw
command qualifies unless one of the four `continue` guards skips it. -/
def qualifies (rb rc : Option Bool) (xo : Bool) (s : List Char) : Bool :=
  !(xo && hasInfix s "draw opacity=0".toList) &&
  !(rb == some true && !is_bezier_like s) &&
  !(rc == some true && !hasInfix s "-- cycle".toList) &&
  !(rb == some false && is_bezier_like s)

/-- Python's `max(candidates, key=len)` on a nonempty list: the first element
of maximal length (later elements replace only on strictly greater length). -/
def max_by_len : List (List Char) → Option (List Char)
  | [] => none
  | x :: xs => some (xs.foldl (fun acc s => if acc.length < s.length then s else acc) x)

/-- Embeds `choose_main_draw` (parser_utils.py, lines 55-82). -/
def choose_main_draw (draws : List (List Char)) (rb rc : Option Bool) (xo : Bool) :
    Option (List Char) :=
  max_by_len (draws.filter (qualifies rb rc xo))

/-- The body draw commands of `BaseParser.parse_shape` (base_parser.py,
lines 34-39): non-arrow lines, optionally narrowed by `main_filter`. -/
def body_draws (raw : List Char) (mf : Option (List Char → Bool)) : List (List Char) :=
  let body := (iter_draw_commands raw).filter (fun d => !is_arrow_line d)
  match mf with
  | none => body
  | some f => body.filter f

/-- The qualifying candidates for the main command of a shape block. -/
def main_candidates (raw : List Char) (rb rc : Option Bool) (xo : Bool)
    (mf : Option (List Char → Bool)) : List (List Char) :=
  (body_draws raw mf).filter (qualifies rb rc xo)

/-- Embeds `BaseParser.parse_shape` (base_parser.py, lines 32-48), returning
the main command and the arrowhead helper commands. -/
def parse_shape (raw : List Char) (rb rc : Option Bool) (xo : Bool)
    (mf : Option (List Char → Bool)) : Option (List Char) × List (List Char) :=
  let draws := iter_draw_commands raw
  let arrow_cmds := draws.filter is_arrow_line
  (choose_main_draw (body_draws raw mf) rb rc xo, arrow_cmds)

/-! ## Pipeline orchestration: `src/core/converter.py` -/

/-- The typed errors of `src/core/exceptions.py` that `Converter.convert`
can raise. -/
inductive ConvError where
  | parser (msg : String)
  | detection (msg : String)
  | processing (msg : String)
  | rendering (msg : String)
deriving DecidableEq

/-- The collaborating stages of `Converter.convert`, abstracted: `detect`
and `process` may fail with a typed error (caught per item and logged),
`process` may also return a falsy result (dropped silently); the remaining
stages are total. -/
structure Pipeline (Block Shape Processed : Type) where
  parse : String → List Block
  detect : Block → Except String (List Shape)
  process : Shape → Except String (Option Processed)
  render : List Processed → String → String
  postprocess : String → String × String
  injectNodes : String → String → String
  compose : String → String → String → String

/-- The detection loop of `Converter.convert` (converter.py, lines 43-49):
extend with each block's shapes, skipping blocks whose detection raises. -/
def detected_shapes {B S P : Type} (pl : Pipeline B S P) (blocks : List B) : List S :=
  blocks.foldl (fun acc b =>
    match pl.detect b with
    | .ok ss => acc ++ ss
    | .error _ => acc) []

/-- The processing loop of `Converter.convert` (converter.py, lines 54-61):
append each successfully processed truthy result, skipping failures. -/
def processed_shapes {B S P : Type} (pl : Pipeline B S P) (shapes : List S) : List P :=
  shapes.foldl (fun acc s =>
    match pl.process s with
    | .ok (some p) => acc ++ [p]
    | .ok none => acc
    | .error _ => acc) []

/-- Embeds the control flow of `Converter.convert` (converter.py,
lines 36-218): each required stage either yields a nonempty result or the
conversion stops with that stage's typed error; on success the composed
output of the renderer is returned in full. -/
def convert {B S P : Type} (pl : Pipeline B S P) (input mode : String) :
    Except ConvError String :=
  let blocks := pl.parse input
  if blocks.isEmpty then .error (.parser "No valid shape blocks found in input")
  else
    let detected := detected_shapes pl blocks
    if detected.isEmpty then .error (.detection "No valid shapes detected in input")
    else
      let processed := processed_shapes pl detected
      if processed.isEmpty then .error (.processing "No shapes were successfully processed")
      else
        let rendered := pl.render processed mode
        if rendered = "" then .error (.rendering "Rendering produced empty output")
        else
          let pp := pl.postprocess rendered
          .ok (pl.compose pp.2 (pl.injectNodes input pp.1) mode)

/-- A degenerate concrete pipeline (no blocks ever parse), used to evaluate
the conversion skeleton on concrete input. -/
def emptyPipeline : Pipeline Unit Unit Unit where
  parse := fun _ => []
  detect := fun _ => .ok []
  process := fun _ => .ok none
  render := fun _ _ => ""
  postprocess := fun s => (s, "")
  injectNodes := fun _ b => b
  compose := fun cd b _ => cd ++ b

/-! ## Color k-d tree: `src/modules/styles/colors/utils/kdtree.py`

The palette file `color_base.py` (`COLOR_DEFINITIONS`) is generated by a
maintenance script and is not among the sources; following the spec, a
palette is modelled as a list of named colors, each with an RGB triple.
Float RGB components are modelled over an arbitrary linearly ordered
commutative ring: distances enter the algorithm only through comparisons,
so the squared Euclidean distance stands in for `np.linalg.norm` (squaring
is strictly monotone on nonnegative reals), and the pruning comparison
`abs (gap) < best` is equivalently `gap * gap < best * best`. -/

section KDTreeSection

variable {α : Type} [LinearOrderedCommRing α]

/-- A named palette entry `(name, (r, g, b))`, as produced by
`ColorKDTree._build_tree`. -/
abbrev ColorPoint (α : Type) := String × α × α × α

/-- The coordinate `rgb[axis]` for `axis = depth % 3` (0 = R, 1 = G, 2 = B). -/
def axisCoord (axis : Nat) (p : α × α × α) : α :=
  if axis = 0 then p.1 else if axis = 1 then p.2.1 else p.2.2

/-- `ColorKDTree._rgb_distance` squared: the squared Euclidean distance
between two RGB triples. -/
def sqDist (p q : α × α × α) : α :=
  (p.1 - q.1) * (p.1 - q.1) + (p.2.1 - q.2.1) * (p.2.1 - q.2.1) +
    (p.2.2 - q.2.2) * (p.2.2 - q.2.2)

/-- The sort key relation of `points.sort(key=lambda x: x[1][axis])`. -/
def axisLe (axis : Nat) (p q : ColorPoint α) : Prop :=
  axisCoord axis p.2 ≤ axisCoord axis q.2

instance (axis : Nat) : DecidableRel (axisLe (α := α) axis) :=
  fun _ _ => inferInstanceAs (Decidable (_ ≤ _))

instance (axis : Nat) : IsTotal (ColorPoint α) (axisLe axis) :=
  ⟨fun _ _ => le_total _ _⟩

instance (axis : Nat) : IsTrans (ColorPoint α) (axisLe axis) :=
  ⟨fun _ _ _ => le_trans⟩

/-- The k-d tree: a `KDNode` with its optional children (`leaf` stands for
Python's `None`). -/
inductive KDTree (α : Type) where
  | leaf : KDTree α
  | node (left : KDTree α) (name : String) (rgb : α × α × α) (right : KDTree α) : KDTree α

/-- Embeds `ColorKDTree._build_recursive` (kdtree.py, lines 63-98): sort by
the depth's axis, take the median as the node, recurse on the two halves.
Python's stable `list.sort` is rendered by `insertionSort` with a `≤` key
relation, which is also stable, and stable sorts agree.  The `Nat` fuel
makes the halving recursion structural; both recursive calls receive
strictly shorter lists, so fuel `points.length` never runs out. -/
def buildKD : Nat → List (ColorPoint α) → Nat → KDTree α
  | _, [], _ => .leaf
  | 0, _ :: _, _ => .leaf
  | fuel + 1, p :: ps, depth =>
    let axis := depth % 3
    let sorted := List.insertionSort (axisLe axis) (p :: ps)
    let m := sorted.length / 2
    let med := sorted.getD m p
    .node (buildKD fuel (sorted.take m) (depth + 1)) med.1 med.2
      (buildKD fuel (sorted.drop (m + 1)) (depth + 1))

/-- The best-candidate update at a visited node (`find_nearest`, lines
122-127): `none` is the initial `float('inf')` with no name. -/
def updateBest (d : α) (nm : String) : Option (α × String) → Option (α × String)
  | none => some (d, nm)
  | some b => if d < b.1 then some (d, nm) else some b

/-- The pruning test `axis_distance < best_distance` (lines 144-145), on
squared distances; everything is closer than the initial infinity. -/
def closerThan (gapSq : α) : Option (α × String) → Bool
  | none => true
  | some b => decide (gapSq < b.1)

/-- Embeds `search_recursive` of `ColorKDTree.find_nearest` (kdtree.py,
lines 116-148): update the best at the node, descend into the subtree on
the target's side of the splitting plane, then into the other subtree
unless the axis gap already exceeds the best distance. -/
def searchKD (target : α × α × α) : KDTree α → Nat → Option (α × String) → Option (α × String)
  | .leaf, _, best => best
  | .node l nm rgb r, depth, best =>
    let best1 := updateBest (sqDist target rgb) nm best
    let axis := depth % 3
    let gap := axisCoord axis target - axisCoord axis rgb
    if axisCoord axis target < axisCoord axis rgb then
      let best2 := searchKD target l (depth + 1) best1
      if closerThan (gap * gap) best2 then searchKD target r (depth + 1) best2 else best2
    else
      let best2 := searchKD target r (depth + 1) best1
      if closerThan (gap * gap) best2 then searchKD target l (depth + 1) best2 else best2

/-- Embeds `ColorKDTree.find_nearest` (kdtree.py, lines 100-149): build the
tree over the palette once, search from the root, return the best name
(`none` for an empty palette). -/
def find_nearest (palette : List (ColorPoint α)) (target : α × α × α) : Option String :=
  (searchKD target (buildKD palette.length palette 0) 0 none).map (fun b => b.2)

/-- The multiset of points stored in a tree (specification helper). -/
def KDTree.points : KDTree α → List (ColorPoint α)
  | .leaf => []
  | .node l nm rgb r => KDTree.points l ++ (nm, rgb) :: KDTree.points r

/-- The k-d invariant at a depth: left-subtree points sit at or below the
node on the depth's axis, right-subtree points at or above, recursively
(specification helper). -/
def KDTree.inv : KDTree α → Nat → Prop
  | .leaf, _ => True
  | .node l _ rgb r, depth =>
    (∀ p ∈ KDTree.points l, axisCoord (depth % 3) p.2 ≤ axisCoord (depth % 3) rgb) ∧
    (∀ p ∈ KDTree.points r, axisCoord (depth % 3) rgb ≤ axisCoord (depth % 3) p.2) ∧
    KDTree.inv l (depth + 1) ∧ KDTree.inv r (depth + 1)

/-- How good a tentative best is, compared to another: anything is at least
as good as the initial infinity (`none`), and among found candidates the
squared distances compare (specification helper). -/
def goodAs : Option (α × String) → Option (α × String) → Prop
  | _, none => True
  | none, some _ => False
  | some x, some y => x.1 ≤ y.1

end KDTreeSection

/-! ## Opacity postprocessor:
`src/modules/styles/fillings/opacity_postprocessor.py`

Regular expressions are rendered as dedicated scanners with the exact
semantics of the compiled patterns (leftmost scan, non-overlapping
continuation, greedy repetition — all the patterns involved are
deterministic).  Numeric values of opacity literals are kept exactly as
scaled integers `(num, den)` with `den = 10 ^ (fraction digits)`; the
float comparison `abs (value - 1.0) < 1e-9` becomes the exact integer
test `|num - den| * 10^9 < den`. -/

end Mathcha

namespace Mathcha

/-! ## Theorems -/

/-- C5 (counterexample): the claim "the ellipse-type computation returns
`"circle"` exactly when `|major - minor| < 1e-6`" fails at
`(major, minor) = (1 + 5/1000000, 1)`: the difference is `5e-6 ≥ 1e-6`,
yet the code (tolerance `1e-5`) answers `"circle"`. -/
theorem compute_ellipse_type_tolerance_fails :
    compute_ellipse_type (1 + 5/1000000) 1 = "circle" ∧
      ¬ (|(1 + 5/1000000 : ℚ) - 1| < 1/1000000) := by
  constructor
  · unfold compute_ellipse_type
    rw [if_pos (by norm_num [abs])]
  · norm_num [abs]

/-- C5 (amended): `compute_ellipse_type` returns `"circle"` exactly when the
axes differ by less than the tolerance `1e-5` (not `1e-6`), and `"ellipse"`
otherwise. -/
theorem compute_ellipse_type_spec (major minor : ℚ) :
    (compute_ellipse_type major minor = "circle" ↔ |major - minor| < 1 / 10 ^ 5) ∧
      (compute_ellipse_type major minor = "ellipse" ↔ ¬ |major - minor| < 1 / 10 ^ 5) := by
  unfold compute_ellipse_type
  split_ifs with hc
  · refine ⟨⟨fun _ => hc, fun _ => rfl⟩, ⟨fun hstr => ?_, fun hn => absurd hc hn⟩⟩
    exact absurd hstr (by simp)
  · refine ⟨⟨fun hstr => ?_, fun hlt => absurd hlt hc⟩, ⟨fun _ => hc, fun _ => rfl⟩⟩
    exact absurd hstr (by simp)

/-- C6: every successful result of `compute_ellipse_params` satisfies
`major_axis ≥ minor_axis`: whatever values the transcendental operations
return, the rotated-frame axes are swapped (and `90°` is added to the
rotation) whenever the solution yields `a < b`. -/
theorem compute_ellipse_params_major_ge_minor (ops : TranscendentalOps)
    (A B C D E F x0 y0 a b θ : ℚ)
    (h : compute_ellipse_params ops A B C D E F = some (x0, y0, a, b, θ)) :
    a ≥ b := by
  simp only [compute_ellipse_params] at h
  split_ifs at h <;>
    first
      | exact Option.noConfusion h
      | (rw [Option.bind_eq_some] at h
         obtain ⟨av, -, h⟩ := h
         rw [Option.bind_eq_some] at h
         obtain ⟨bv, -, h⟩ := h
         split_ifs at h with hab <;>
           simp only [Option.some.injEq, Prod.mk.injEq] at h <;>
           obtain ⟨-, -, h3, h4, -⟩ := h <;>
           rw [← h3, ← h4] <;>
           first
             | exact le_of_lt hab
             | exact not_lt.mp hab)

/-- C6 (witness): on the unit circle's coefficients `(1,1,0,0,0,-1)` with the
sample operations the fit succeeds with axes `(1, 1)`, and the theorem gives
`1 ≥ 1`. -/
theorem compute_ellipse_params_major_ge_minor_witness : (1 : ℚ) ≥ 1 :=
  compute_ellipse_params_major_ge_minor sampleOps 1 1 0 0 0 (-1) 0 0 1 1 0 (by
    unfold compute_ellipse_params sampleOps
    norm_num [abs])

/-- C10: `project_point_on_segment` is total and clamped: the result always
lies in `[0, 1]`, and a degenerate segment (squared length `≤ 1e-12`)
yields `0` without dividing by the segment length. -/
theorem project_point_on_segment_spec (point start_p end_p : ℚ × ℚ) :
    (0 ≤ project_point_on_segment point start_p end_p ∧
      project_point_on_segment point start_p end_p ≤ 1) ∧
      ((end_p.1 - start_p.1) * (end_p.1 - start_p.1) +
        (end_p.2 - start_p.2) * (end_p.2 - start_p.2) ≤ 1 / 10 ^ 12 →
        project_point_on_segment point start_p end_p = 0) := by
  unfold project_point_on_segment
  dsimp only
  split_ifs with hdeg
  · exact ⟨⟨le_refl 0, by norm_num⟩, fun _ => rfl⟩
  · refine ⟨⟨le_max_left 0 _, ?_⟩, fun hc => absurd hc hdeg⟩
    exact max_le (by norm_num) (min_le_left 1 _)

/-- C10 (witness): the theorem applied at the degenerate segment
`(1,1)..(1,1)` with point `(2,3)` gives result `0`. -/
theorem project_point_on_segment_spec_witness :
    project_point_on_segment (2, 3) (1, 1) (1, 1) = 0 :=
  (project_point_on_segment_spec (2, 3) (1, 1) (1, 1)).2 (by norm_num)

/-- Helper: the fold of `max_by_len` returns its seed or a list element. -/
theorem foldl_longest_mem (xs : List (List Char)) (x : List Char) :
    xs.foldl (fun acc s => if acc.length < s.length then s else acc) x = x ∨
      xs.foldl (fun acc s => if acc.length < s.length then s else acc) x ∈ xs := by
  induction xs generalizing x with
  | nil => exact Or.inl rfl
  | cons y ys ih =>
    rw [List.foldl_cons]
    rcases ih (if x.length < y.length then y else x) with h | h
    · rw [h]
      split_ifs with hc
      · exact Or.inr (List.mem_cons_self y ys)
      · exact Or.inl rfl
    · exact Or.inr (List.mem_cons_of_mem y h)

/-- Helper: the fold of `max_by_len` is at least as long as its seed and as
every list element. -/
theorem foldl_longest_ge (xs : List (List Char)) (x : List Char) :
    x.length ≤ (xs.foldl (fun acc s => if acc.length < s.length then s else acc) x).length ∧
      ∀ c ∈ xs,
        c.length ≤ (xs.foldl (fun acc s => if acc.length < s.length then s else acc) x).length := by
  induction xs generalizing x with
  | nil => exact ⟨le_refl _, fun c hc => absurd hc (List.not_mem_nil c)⟩
  | cons y ys ih =>
    rw [List.foldl_cons]
    obtain ⟨h1, h2⟩ := ih (if x.length < y.length then y else x)
    constructor
    · refine le_trans ?_ h1
      split_ifs with hc
      · exact le_of_lt hc
      · exact le_refl _
    · intro c hc
      rcases List.mem_cons.mp hc with rfl | hmem
      · refine le_trans ?_ h1
        split_ifs with hc2
        · exact le_refl _
        · exact le_of_not_lt hc2
      · exact h2 c hmem

/-- Helper: `max_by_len` (Python's `max(·, key=len)`) returns a member of
maximal length. -/
theorem max_by_len_spec (l : List (List Char)) (m : List Char)
    (h : max_by_len l = some m) : m ∈ l ∧ ∀ c ∈ l, c.length ≤ m.length := by
  match l with
  | [] => exact Option.noConfusion h
  | x :: xs =>
    simp only [max_by_len, Option.some.injEq] at h
    subst h
    constructor
    · rcases foldl_longest_mem xs x with h | h
      · rw [h]; exact List.mem_cons_self x xs
      · exact List.mem_cons_of_mem x h
    · intro c hc
      obtain ⟨h1, h2⟩ := foldl_longest_ge xs x
      rcases List.mem_cons.mp hc with rfl | hmem
      · exact h1
      · exact h2 c hmem

/-- C9: whenever `parse_shape` selects a main command, it is one of the body
draw commands passing the type's qualifying filter (and the opacity-zero
guard), no qualifying command is textually longer, and the selected command
never contains both the `shift` and the `rotate` affine tokens (such
commands are classified as arrowhead helpers and excluded from the body). -/
theorem parse_shape_main_spec (raw : List Char) (rb rc : Option Bool) (xo : Bool)
    (mf : Option (List Char → Bool)) (m : List Char)
    (h : (parse_shape raw rb rc xo mf).1 = some m) :
    m ∈ main_candidates raw rb rc xo mf ∧
      (∀ c ∈ main_candidates raw rb rc xo mf, c.length ≤ m.length) ∧
      ¬ (hasInfix m "shift".toList = true ∧ hasInfix m "rotate".toList = true) := by
  have hm : max_by_len (main_candidates raw rb rc xo mf) = some m := h
  obtain ⟨hmem, hge⟩ := max_by_len_spec _ _ hm
  refine ⟨hmem, hge, ?_⟩
  have hnarrow : is_arrow_line m = false := by
    have hbody : m ∈ body_draws raw mf := (List.mem_filter.mp hmem).1
    cases mf with
    | none =>
      simp only [body_draws] at hbody
      simpa using (List.mem_filter.mp hbody).2
    | some f =>
      simp only [body_draws] at hbody
      simpa using (List.mem_filter.mp (List.mem_filter.mp hbody).1).2
  rintro ⟨hs, -⟩
  unfold is_arrow_line at hnarrow
  rw [hs] at hnarrow
  simp at hnarrow

/-- C9 (witness): on a three-command block — a long styled line, a
`shift`+`rotate` arrowhead helper, and a short line — the long line is
selected, the helper is not. -/
theorem parse_shape_main_spec_witness :
    ("\\draw[color=red] (0,0) -- (100,100);".toList ∈
        main_candidates
          "\\draw [color=red] (0,0) -- (100,100);\n\\draw [shift={(1,1)}, rotate=30] (0,0) -- (1,0);\n\\draw (0,0) -- (1,1);".toList
          none none true none) ∧
      (∀ c ∈ main_candidates
          "\\draw [color=red] (0,0) -- (100,100);\n\\draw [shift={(1,1)}, rotate=30] (0,0) -- (1,0);\n\\draw (0,0) -- (1,1);".toList
          none none true none,
        c.length ≤ "\\draw[color=red] (0,0) -- (100,100);".toList.length) ∧
      ¬ (hasInfix "\\draw[color=red] (0,0) -- (100,100);".toList "shift".toList = true ∧
          hasInfix "\\draw[color=red] (0,0) -- (100,100);".toList "rotate".toList = true) :=
  parse_shape_main_spec
    "\\draw [color=red] (0,0) -- (100,100);\n\\draw [shift={(1,1)}, rotate=30] (0,0) -- (1,0);\n\\draw (0,0) -- (1,1);".toList
    none none true none "\\draw[color=red] (0,0) -- (100,100);".toList (by decide)

/-- C2: the conversion pipeline raises the parser error when no shape block
is parsed, the detection error when no shape is detected from the parsed
blocks, the processing error when no shape processes successfully, and a
successful conversion returns exactly the renderer's composed output of the
fully postprocessed body — never a partial result. -/
theorem convert_spec {B S P : Type} (pl : Pipeline B S P) (input mode : String) :
    (pl.parse input = [] →
      convert pl input mode = .error (.parser "No valid shape blocks found in input")) ∧
    (pl.parse input ≠ [] → detected_shapes pl (pl.parse input) = [] →
      convert pl input mode = .error (.detection "No valid shapes detected in input")) ∧
    (pl.parse input ≠ [] → detected_shapes pl (pl.parse input) ≠ [] →
      processed_shapes pl (detected_shapes pl (pl.parse input)) = [] →
      convert pl input mode = .error (.processing "No shapes were successfully processed")) ∧
    (∀ out, convert pl input mode = .ok out →
      pl.parse input ≠ [] ∧ detected_shapes pl (pl.parse input) ≠ [] ∧
      processed_shapes pl (detected_shapes pl (pl.parse input)) ≠ [] ∧
      pl.render (processed_shapes pl (detected_shapes pl (pl.parse input))) mode ≠ "" ∧
      out = pl.compose
        (pl.postprocess
          (pl.render (processed_shapes pl (detected_shapes pl (pl.parse input))) mode)).2
        (pl.injectNodes input
          (pl.postprocess
            (pl.render (processed_shapes pl (detected_shapes pl (pl.parse input))) mode)).1)
        mode) := by
  refine ⟨?_, ?_, ?_, ?_⟩
  · intro hp
    simp only [convert]
    rw [if_pos (show (pl.parse input).isEmpty = true by rw [hp]; rfl)]
  · intro hp hd
    simp only [convert]
    rw [if_neg (show ¬ (pl.parse input).isEmpty = true by
          simp only [List.isEmpty_iff]; exact hp),
        if_pos (show (detected_shapes pl (pl.parse input)).isEmpty = true by rw [hd]; rfl)]
  · intro hp hd hpr
    simp only [convert]
    rw [if_neg (show ¬ (pl.parse input).isEmpty = true by
          simp only [List.isEmpty_iff]; exact hp),
        if_neg (show ¬ (detected_shapes pl (pl.parse input)).isEmpty = true by
          simp only [List.isEmpty_iff]; exact hd),
        if_pos (show (processed_shapes pl (detected_shapes pl (pl.parse input))).isEmpty = true by
          rw [hpr]; rfl)]
  · intro out hout
    simp only [convert] at hout
    split_ifs at hout with h1 h2 h3 h4
    injection hout with hval
    refine ⟨?_, ?_, ?_, h4, hval.symm⟩
    · intro heq; exact h1 (by rw [heq]; rfl)
    · intro heq; exact h2 (by rw [heq]; rfl)
    · intro heq; exact h3 (by rw [heq]; rfl)

/-- C2 (witness): on the degenerate pipeline that parses no blocks, the
conversion raises the parser error. -/
theorem convert_spec_witness :
    convert emptyPipeline "x" "classic" =
      .error (.parser "No valid shape blocks found in input") :=
  (convert_spec emptyPipeline "x" "classic").1 rfl

section KDTreeProofs

variable {α : Type} [LinearOrderedCommRing α]

/-- Helper: the tree built with sufficient fuel stores exactly the input
points (as a multiset). -/
theorem buildKD_points_perm (fuel : Nat) :
    ∀ (pts : List (ColorPoint α)) (depth : Nat), pts.length ≤ fuel →
      (buildKD fuel pts depth).points.Perm pts := by
  induction fuel with
  | zero =>
    intro pts depth hlen
    match pts with
    | [] => simp [buildKD, KDTree.points]
    | p :: ps => simp at hlen
  | succ fuel ih =>
    intro pts depth hlen
    match pts with
    | [] => simp [buildKD, KDTree.points]
    | p :: ps =>
      simp only [buildKD, KDTree.points]
      set sorted := List.insertionSort (axisLe (depth % 3)) (p :: ps) with hsortdef
      set m := sorted.length / 2 with hmdef
      set med := sorted.getD m p with hmeddef
      have hslen : sorted.length = (p :: ps).length := List.length_insertionSort _ _
      have hpos : 1 ≤ (p :: ps).length := by simp
      have hm : m < sorted.length := by omega
      have htake : (sorted.take m).length ≤ fuel := by
        rw [List.length_take]; omega
      have hdrop : (sorted.drop (m + 1)).length ≤ fuel := by
        rw [List.length_drop]; omega
      have hl := ih _ (depth + 1) htake
      have hr := ih _ (depth + 1) hdrop
      have hcomb := hl.append (hr.cons (med.1, med.2))
      refine hcomb.trans ?_
      have heta : (med.1, med.2) = med := rfl
      have hmed2 : med = sorted[m] := List.getD_eq_getElem sorted p hm
      rw [heta, hmed2, ← List.drop_eq_getElem_cons hm, List.take_append_drop]
      exact List.perm_insertionSort _ _

/-- Helper: in a key-sorted list, every element before the median is at or
below it on the key. -/
theorem sorted_take_le (axis : Nat) (l : List (ColorPoint α))
    (hs : List.Sorted (axisLe axis) l) (m : Nat) (hm : m < l.length) :
    ∀ p ∈ l.take m, axisCoord axis p.2 ≤ axisCoord axis l[m].2 := by
  intro p hp
  obtain ⟨i, hi, hpe⟩ := List.mem_iff_getElem.mp hp
  have him : i < m := by
    rw [List.length_take] at hi; omega
  rw [List.getElem_take] at hpe
  subst hpe
  exact List.pairwise_iff_getElem.mp hs i m (by omega) hm him

/-- Helper: in a key-sorted list, every element after the median is at or
above it on the key. -/
theorem sorted_drop_ge (axis : Nat) (l : List (ColorPoint α))
    (hs : List.Sorted (axisLe axis) l) (m : Nat) (hm : m < l.length) :
    ∀ p ∈ l.drop (m + 1), axisCoord axis l[m].2 ≤ axisCoord axis p.2 := by
  intro p hp
  obtain ⟨i, hi, hpe⟩ := List.mem_iff_getElem.mp hp
  have hlen : m + 1 + i < l.length := by
    rw [List.length_drop] at hi; omega
  rw [List.getElem_drop] at hpe
  subst hpe
  exact List.pairwise_iff_getElem.mp hs m (m + 1 + i) hm hlen (by omega)

/-- Helper: the tree built with sufficient fuel satisfies the k-d invariant
at its depth: the median split sends small axis keys left, large right. -/
theorem buildKD_inv (fuel : Nat) :
    ∀ (pts : List (ColorPoint α)) (depth : Nat), pts.length ≤ fuel →
      (buildKD fuel pts depth).inv depth := by
  induction fuel with
  | zero =>
    intro pts depth hlen
    match pts with
    | [] => simp [buildKD, KDTree.inv]
    | p :: ps => simp at hlen
  | succ fuel ih =>
    intro pts depth hlen
    match pts with
    | [] => simp [buildKD, KDTree.inv]
    | p :: ps =>
      simp only [buildKD, KDTree.inv]
      set sorted := List.insertionSort (axisLe (depth % 3)) (p :: ps) with hsortdef
      set m := sorted.length / 2 with hmdef
      set med := sorted.getD m p with hmeddef
      have hslen : sorted.length = (p :: ps).length := List.length_insertionSort _ _
      have hpos : 1 ≤ (p :: ps).length := by simp
      have hm : m < sorted.length := by omega
      have htake : (sorted.take m).length ≤ fuel := by
        rw [List.length_take]; omega
      have hdrop : (sorted.drop (m + 1)).length ≤ fuel := by
        rw [List.length_drop]; omega
      have hsorted : List.Sorted (axisLe (depth % 3)) sorted :=
        List.sorted_insertionSort _ _
      have hmed2 : med = sorted[m] := List.getD_eq_getElem sorted p hm
      refine ⟨?_, ?_, ih _ (depth + 1) htake, ih _ (depth + 1) hdrop⟩
      · intro q hq
        have hq' : q ∈ sorted.take m :=
          (buildKD_points_perm fuel _ (depth + 1) htake).mem_iff.mp hq
        have := sorted_take_le (depth % 3) sorted hsorted m hm q hq'
        rw [← hmed2] at this
        exact this
      · intro q hq
        have hq' : q ∈ sorted.drop (m + 1) :=
          (buildKD_points_perm fuel _ (depth + 1) hdrop).mem_iff.mp hq
        have := sorted_drop_ge (depth % 3) sorted hsorted m hm q hq'
        rw [← hmed2] at this
        exact this

/-- Helper: `goodAs` is reflexive. -/
theorem goodAs_refl (b : Option (α × String)) : goodAs b b := by
  cases b <;> simp [goodAs]

/-- Helper: `goodAs` is transitive. -/
theorem goodAs_trans {b1 b2 b3 : Option (α × String)}
    (h12 : goodAs b1 b2) (h23 : goodAs b2 b3) : goodAs b1 b3 := by
  cases b1 <;> cases b2 <;> cases b3 <;> simp [goodAs] at * <;> try linarith

/-- Helper: a candidate at least as good as a found one is itself found,
with a distance no worse. -/
theorem goodAs_some {b : Option (α × String)} {y : α × String}
    (h : goodAs b (some y)) : ∃ x, b = some x ∧ x.1 ≤ y.1 := by
  cases b with
  | none => exact absurd h (by simp [goodAs])
  | some x => exact ⟨x, rfl, h⟩

/-- Helper: updating the best never makes it worse. -/
theorem updateBest_goodAs (d : α) (nm : String) (b : Option (α × String)) :
    goodAs (updateBest d nm b) b := by
  cases b with
  | none => simp [updateBest, goodAs]
  | some y =>
    simp only [updateBest]
    split_ifs with hlt
    · exact le_of_lt hlt
    · exact le_refl _

/-- Helper: the updated best is the new candidate or the old best. -/
theorem updateBest_cases {d : α} {nm : String} {b : Option (α × String)}
    {bv : α × String} (h : updateBest d nm b = some bv) :
    bv = (d, nm) ∨ b = some bv := by
  cases b with
  | none =>
    simp only [updateBest, Option.some.injEq] at h
    exact Or.inl h.symm
  | some y =>
    simp only [updateBest] at h
    split_ifs at h with hlt <;> simp only [Option.some.injEq] at h
    · exact Or.inl h.symm
    · exact Or.inr (by rw [h])

/-- Helper: an update with a distance `≤ 0` leaves a best with distance
`≤ 0`. -/
theorem updateBest_le_zero {d : α} (nm : String) (b : Option (α × String))
    (hd : d ≤ 0) : ∃ b1, updateBest d nm b = some b1 ∧ b1.1 ≤ 0 := by
  cases b with
  | none => exact ⟨(d, nm), rfl, hd⟩
  | some y =>
    simp only [updateBest]
    split_ifs with hlt
    · exact ⟨(d, nm), rfl, hd⟩
    · exact ⟨y, rfl, le_trans (not_lt.mp hlt) hd⟩

/-- Helper: the search result is at least as good as the incoming best. -/
theorem searchKD_goodAs (target : α × α × α) (tr : KDTree α) :
    ∀ (depth : Nat) (best : Option (α × String)),
      goodAs (searchKD target tr depth best) best := by
  induction tr with
  | leaf => intro depth best; exact goodAs_refl best
  | node l nm rgb r ihl ihr =>
    intro depth best
    simp only [searchKD]
    split_ifs with hside hprune hprune
    · exact goodAs_trans (goodAs_trans (ihr _ _) (ihl _ _)) (updateBest_goodAs _ _ _)
    · exact goodAs_trans (ihl _ _) (updateBest_goodAs _ _ _)
    · exact goodAs_trans (goodAs_trans (ihl _ _) (ihr _ _)) (updateBest_goodAs _ _ _)
    · exact goodAs_trans (ihr _ _) (updateBest_goodAs _ _ _)

/-- Helper: a found search result is a tree point at its true squared
distance, unless it is the incoming best untouched. -/
theorem searchKD_sound (target : α × α × α) (tr : KDTree α) :
    ∀ (depth : Nat) (best : Option (α × String)) (bv : α × String),
      searchKD target tr depth best = some bv →
      (∃ c, (bv.2, c) ∈ tr.points ∧ bv.1 = sqDist target c) ∨ best = some bv := by
  induction tr with
  | leaf => intro depth best bv h; exact Or.inr h
  | node l nm rgb r ihl ihr =>
    intro depth best bv h
    simp only [searchKD] at h
    have memnode : ∀ c : α × α × α, ∀ sub : Bool,
        (bv.2, c) ∈ (if sub then l else r).points → (bv.2, c) ∈ (KDTree.node l nm rgb r).points := by
      intro c sub hc
      simp only [KDTree.points, List.mem_append, List.mem_cons]
      cases sub with
      | true => exact Or.inl (by simpa using hc)
      | false => exact Or.inr (Or.inr (by simpa using hc))
    have hcenter : ∀ hb : updateBest (sqDist target rgb) nm best = some bv,
        (∃ c, (bv.2, c) ∈ (KDTree.node l nm rgb r).points ∧ bv.1 = sqDist target c) ∨
          best = some bv := by
      intro hb
      rcases updateBest_cases hb with heq | hold
      · refine Or.inl ⟨rgb, ?_, by rw [heq]⟩
        rw [heq]
        simp [KDTree.points]
      · exact Or.inr hold
    split_ifs at h with hside hprune hprune
    · -- first l, then r searched
      rcases ihr _ _ _ h with ⟨c, hc, hd⟩ | h2
      · exact Or.inl ⟨c, memnode c false hc, hd⟩
      · rcases ihl _ _ _ h2 with ⟨c, hc, hd⟩ | h1
        · exact Or.inl ⟨c, memnode c true hc, hd⟩
        · exact hcenter h1
    · -- only l searched
      rcases ihl _ _ _ h with ⟨c, hc, hd⟩ | h1
      · exact Or.inl ⟨c, memnode c true hc, hd⟩
      · exact hcenter h1
    · -- first r, then l searched
      rcases ihl _ _ _ h with ⟨c, hc, hd⟩ | h2
      · exact Or.inl ⟨c, memnode c true hc, hd⟩
      · rcases ihr _ _ _ h2 with ⟨c, hc, hd⟩ | h1
        · exact Or.inl ⟨c, memnode c false hc, hd⟩
        · exact hcenter h1
    · -- only r searched
      rcases ihr _ _ _ h with ⟨c, hc, hd⟩ | h1
      · exact Or.inl ⟨c, memnode c false hc, hd⟩
      · exact hcenter h1

/-- Helper: once a zero-distance best is held, the final pruning step (and
an optional second-subtree search) keeps a best with distance `≤ 0`. -/
theorem search_keeps_zero (target : α × α × α) (sub : KDTree α) (depth : Nat)
    {best2 : Option (α × String)} {b2 : α × String}
    (h2 : best2 = some b2) (hle : b2.1 ≤ 0) (g : α) :
    ∃ bv, (if closerThan g best2 then searchKD target sub depth best2 else best2) = some bv ∧
      bv.1 ≤ 0 := by
  split_ifs with hc
  · have hg := searchKD_goodAs target sub depth best2
    rw [h2] at hg
    obtain ⟨x, hx, hxle⟩ := goodAs_some hg
    exact ⟨x, by rw [← h2] at hx; exact hx, le_trans hxle hle⟩
  · exact ⟨b2, h2, hle⟩

/-- Helper: when the target is itself stored in a tree satisfying the k-d
invariant, the branch-and-bound search finds a best with squared distance
`≤ 0` — the axis-gap pruning never hides the zero-distance node. -/
theorem searchKD_finds_zero (target : α × α × α) (tr : KDTree α) (nm₀ : String) :
    ∀ (depth : Nat) (best : Option (α × String)),
      (nm₀, target) ∈ tr.points → tr.inv depth →
      ∃ bv, searchKD target tr depth best = some bv ∧ bv.1 ≤ 0 := by
  induction tr with
  | leaf =>
    intro depth best hmem _
    exact absurd hmem (List.not_mem_nil _)
  | node l nm rgb r ihl ihr =>
    intro depth best hmem hinv
    obtain ⟨hL, hR, hIl, hIr⟩ := hinv
    simp only [KDTree.points, List.mem_append, List.mem_cons, Prod.mk.injEq] at hmem
    simp only [searchKD]
    rcases hmem with hmeml | hcent | hmemr
    · -- the target sits in the left subtree
      have haxle : axisCoord (depth % 3) target ≤ axisCoord (depth % 3) rgb := hL _ hmeml
      by_cases hside : axisCoord (depth % 3) target < axisCoord (depth % 3) rgb
      · rw [if_pos hside]
        obtain ⟨b2, hb2, hb2le⟩ :=
          ihl (depth + 1) (updateBest (sqDist target rgb) nm best) hmeml hIl
        exact search_keeps_zero target r (depth + 1) hb2 hb2le _
      · rw [if_neg hside]
        have heq : axisCoord (depth % 3) target = axisCoord (depth % 3) rgb :=
          le_antisymm haxle (not_lt.mp hside)
        have hgap : (axisCoord (depth % 3) target - axisCoord (depth % 3) rgb) *
            (axisCoord (depth % 3) target - axisCoord (depth % 3) rgb) = 0 := by
          rw [heq]; ring
        rw [hgap]
        cases hbest2 : searchKD target r (depth + 1) (updateBest (sqDist target rgb) nm best) with
        | none =>
          rw [if_pos (show closerThan (0 : α) none = true from rfl)]
          exact ihl (depth + 1) none hmeml hIl
        | some b =>
          by_cases h01 : (0 : α) < b.1
          · rw [if_pos (show closerThan (0 : α) (some b) = true by simp [closerThan, h01])]
            exact ihl (depth + 1) (some b) hmeml hIl
          · rw [if_neg (show ¬ closerThan (0 : α) (some b) = true by simp [closerThan, h01])]
            exact ⟨b, rfl, not_lt.mp h01⟩
    · -- the target is the node itself
      obtain ⟨hnm, hrgb⟩ := hcent
      subst hrgb
      have hd0 : sqDist target target = 0 := by simp [sqDist]
      obtain ⟨b1, hb1, hb1le⟩ := updateBest_le_zero nm best (le_of_eq hd0)
      by_cases hside : axisCoord (depth % 3) target < axisCoord (depth % 3) target
      · rw [if_pos hside, hb1]
        have hg := searchKD_goodAs target l (depth + 1) (some b1)
        obtain ⟨b2, hb2, hb2le⟩ := goodAs_some hg
        exact search_keeps_zero target r (depth + 1) hb2 (le_trans hb2le hb1le) _
      · rw [if_neg hside, hb1]
        have hg := searchKD_goodAs target r (depth + 1) (some b1)
        obtain ⟨b2, hb2, hb2le⟩ := goodAs_some hg
        exact search_keeps_zero target l (depth + 1) hb2 (le_trans hb2le hb1le) _
    · -- the target sits in the right subtree
      have haxge : axisCoord (depth % 3) rgb ≤ axisCoord (depth % 3) target := hR _ hmemr
      rw [if_neg (not_lt.mpr haxge)]
      obtain ⟨b2, hb2, hb2le⟩ :=
        ihr (depth + 1) (updateBest (sqDist target rgb) nm best) hmemr hIr
      exact search_keeps_zero target l (depth + 1) hb2 hb2le _

/-- Helper: the squared RGB distance is nonnegative. -/
theorem sqDist_nonneg (p q : α × α × α) : 0 ≤ sqDist p q := by
  have h1 := mul_self_nonneg (p.1 - q.1)
  have h2 := mul_self_nonneg (p.2.1 - q.2.1)
  have h3 := mul_self_nonneg (p.2.2 - q.2.2)
  unfold sqDist
  linarith

/-- Helper: zero squared RGB distance forces equal triples. -/
theorem sqDist_eq_zero {p q : α × α × α} (h : sqDist p q = 0) : p = q := by
  unfold sqDist at h
  have h1 := mul_self_nonneg (p.1 - q.1)
  have h2 := mul_self_nonneg (p.2.1 - q.2.1)
  have h3 := mul_self_nonneg (p.2.2 - q.2.2)
  have e1 : (p.1 - q.1) * (p.1 - q.1) = 0 := by linarith
  have e2 : (p.2.1 - q.2.1) * (p.2.1 - q.2.1) = 0 := by linarith
  have e3 : (p.2.2 - q.2.2) * (p.2.2 - q.2.2) = 0 := by linarith
  have f1 : p.1 = q.1 := by have := mul_self_eq_zero.mp e1; linarith
  have f2 : p.2.1 = q.2.1 := by have := mul_self_eq_zero.mp e2; linarith
  have f3 : p.2.2 = q.2.2 := by have := mul_self_eq_zero.mp e3; linarith
  obtain ⟨pa, pb, pc⟩ := p
  obtain ⟨qa, qb, qc⟩ := q
  simp only at f1 f2 f3
  rw [f1, f2, f3]

/-- C4: querying the k-d tree nearest-neighbor search with the exact RGB
triple of a palette entry returns exactly that entry's name (the zero
squared distance match): the median-split build satisfies the k-d
invariant and the branch-and-bound search with the axis-gap pruning never
misses the zero-distance node.  The palette is any list of named colors
whose RGB triples are pairwise distinct across names (the generated
palette file is not among the sources; the spec describes it as a fixed
palette of named colors with 0-1 RGB triples). -/
theorem find_nearest_palette_entry (palette : List (ColorPoint α)) (nm₀ : String)
    (c₀ : α × α × α) (hmem : (nm₀, c₀) ∈ palette)
    (huniq : ∀ n₁ n₂ c, (n₁, c) ∈ palette → (n₂, c) ∈ palette → n₁ = n₂) :
    find_nearest palette c₀ = some nm₀ := by
  have hperm := buildKD_points_perm (α := α) palette.length palette 0 (le_refl _)
  have hinv := buildKD_inv (α := α) palette.length palette 0 (le_refl _)
  have hmem' : (nm₀, c₀) ∈ (buildKD palette.length palette 0).points :=
    hperm.mem_iff.mpr hmem
  obtain ⟨bv, hsearch, hle⟩ :=
    searchKD_finds_zero c₀ (buildKD palette.length palette 0) nm₀ 0 none hmem' hinv
  rcases searchKD_sound c₀ _ 0 none bv hsearch with ⟨c, hcmem, hcd⟩ | hcontra
  · have h0 : sqDist c₀ c = 0 := le_antisymm (by rw [← hcd]; exact hle) (sqDist_nonneg _ _)
    have hc : c₀ = c := sqDist_eq_zero h0
    subst hc
    have hpal : (bv.2, c₀) ∈ palette := hperm.mem_iff.mp hcmem
    have hname : bv.2 = nm₀ := huniq _ _ _ hpal hmem
    unfold find_nearest
    rw [hsearch]
    simp [hname]
  · exact Option.noConfusion hcontra

end KDTreeProofs

/-- C4 (witness): on a three-color palette over `ℤ` with distinct triples,
the query at the exact triple of the `Red` entry returns `"Red"`. -/
theorem find_nearest_palette_entry_witness :
    find_nearest [("Black", ((0 : ℤ), 0, 0)), ("Red", (10, 0, 0)), ("White", (10, 10, 10))]
      (10, 0, 0) = some "Red" :=
  find_nearest_palette_entry _ "Red" (10, 0, 0) (by simp)
    (by
      intro n₁ n₂ c h₁ h₂
      simp only [List.mem_cons, List.not_mem_nil, or_false, Prod.mk.injEq] at h₁ h₂
      rcases h₁ with ⟨rfl, rfl⟩ | ⟨rfl, rfl⟩ | ⟨rfl, rfl⟩ <;>
        rcases h₂ with ⟨rfl, h₂⟩ | ⟨rfl, h₂⟩ | ⟨rfl, h₂⟩ <;>
        first | rfl | exact absurd h₂ (by decide))

theorem pyIsSpace_comma : pyIsSpace ',' = false := rfl

end Mathcha

